import Mathlib

/-!
Verification of the Spongecake equity scraper/calculator.

This file shallowly embeds the core operations of the repository
(`spongecake/fundamentals/InvestorsChronicleInterface.py`,
`spongecake/fundamentals/FinancialWebsiteInterface.py`,
`spongecake/technicals/Indicators.py`,
`spongecake/prices/YahooPricesInterface.py`,
`spongecake/prices/PricesInterface.py`) and proves or refutes the frozen
claims about them.

Modelling conventions:
* Python strings are `String` / `List Char`; Python `str.find(sub, start)`
  is `findFrom` below (returning `Option Nat` instead of `-1`).
* Python floats are modelled as `ℚ`; the builtin `float(...)` conversion
  (restricted to the simple decimal literals that occur in the scraped
  data: optional sign, digits, optional decimal point) is `pythonFloat`,
  with a failed conversion (Python `ValueError`) surfaced as `none`.
* Python exceptions are modelled with `Except PyErr`.
* `datetime` timestamps are seconds since an arbitrary epoch (`Nat`); the
  `timedelta.seconds` field used by the code is the seconds component of
  the difference, i.e. the total difference modulo 86400 (assuming the
  cached timestamp is not in the future).
* Network downloads are parameters: the downloaded page text, or a
  producer function standing for download + parse, is passed in
  explicitly, and the in-memory caches are passed and returned as
  explicit association lists.
-/

/-- Python exceptions that the modelled code can raise. -/
inductive PyErr : Type
  | keyError
  | valueError
  | indexError
  | zeroDivisionError
  deriving Repr, DecidableEq

/-! ## List/string scanning primitives -/

/-- `pfx p l` tests whether `p` is a (leading) prefix of `l`. -/
def pfx : List Char → List Char → Bool
  | [], _ => true
  | _ :: _, [] => false
  | a :: as, b :: bs => if a = b then pfx as bs else false

/-- First index (relative) at which `p` occurs in `l`, scanning left to
right; models the search underlying Python `str.find`. -/
def subFind (p : List Char) : List Char → Option Nat
  | [] => if pfx p [] then some 0 else none
  | c :: t => if pfx p (c :: t) then some 0 else (subFind p t).map (· + 1)

/-- Python `data.find(p, start)`: absolute index of the first occurrence of
`p` in `data` at position `≥ start`, or `none` (Python `-1`). -/
def findFrom (p data : List Char) (start : Nat) : Option Nat :=
  (subFind p (data.drop start)).map (· + start)

/-- Python slice `data[a:b]` for nonnegative bounds. -/
def pySlice (data : List Char) (a b : Nat) : List Char :=
  (data.take b).drop a

/-- Whether `p` occurs anywhere in `l` as a contiguous substring. -/
def hasOcc (p l : List Char) : Bool :=
  (subFind p l).isSome

/-! ## Python float conversion -/

/-- Numeric value of a (all-digit) list of decimal digit characters; the
empty list counts as 0 so that `"1."` parses like Python `float("1.")`. -/
def decDigitsNat (l : List Char) : ℕ :=
  l.foldl (fun acc c => acc * 10 + (c.toNat - 48)) 0

/-- Parse an unsigned decimal literal: digits, optionally followed by a
decimal point and more digits, with at least one digit overall. -/
def parseUnsignedFloat (l : List Char) : Option ℚ :=
  if (l.dropWhile (·.isDigit)).isEmpty then
    if (l.takeWhile (·.isDigit)).isEmpty then none
    else some (decDigitsNat (l.takeWhile (·.isDigit)) : ℚ)
  else if (l.dropWhile (·.isDigit)).head? = some '.'
      ∧ (l.dropWhile (·.isDigit)).tail.all (·.isDigit)
      ∧ ¬((l.takeWhile (·.isDigit)).isEmpty
          ∧ (l.dropWhile (·.isDigit)).tail.isEmpty) then
    some ((decDigitsNat (l.takeWhile (·.isDigit)) : ℚ)
      + (decDigitsNat (l.dropWhile (·.isDigit)).tail : ℚ)
          / (10 : ℚ) ^ (l.dropWhile (·.isDigit)).tail.length)
  else none

/-- Python `float(s)` on the simple decimal literals occurring in the
scraped data (optional sign, digits, optional decimal point); `none`
models a raised `ValueError`. -/
def pythonFloat (l : List Char) : Option ℚ :=
  if l.head? = some '-' then (parseUnsignedFloat l.tail).map (fun q => -q)
  else if l.head? = some '+' then parseUnsignedFloat l.tail
  else parseUnsignedFloat l

/-! ## Caches (Python dicts keyed by strings) -/

/-- Dictionary lookup `d[k]` / `k in d`. -/
def lookupCache {α : Type} : List (String × α) → String → Option α
  | [], _ => none
  | (k', v) :: rest, k => if k' = k then some v else lookupCache rest k

/-- Dictionary assignment `d[k] = v` (replace existing binding, else add). -/
def insertCache {α : Type} : List (String × α) → String → α → List (String × α)
  | [], k, v => [(k, v)]
  | (k', v') :: rest, k, v =>
      if k' = k then (k, v) :: rest else (k', v') :: insertCache rest k v

theorem lookupCache_insertCache_self {α : Type} (c : List (String × α))
    (k : String) (v : α) : lookupCache (insertCache c k v) k = some v := by
  induction c with
  | nil => simp [insertCache, lookupCache]
  | cons hd tl ih =>
      obtain ⟨k', v'⟩ := hd
      by_cases h : k' = k
      · simp [insertCache, h, lookupCache]
      · simp [insertCache, h, lookupCache, ih]

/-! ## Cache keys

`InvestorsChronicleInterface` builds every cache key as
`'{0}:{1}'.format(tidm, market)`. -/

/-- The composite cache key `tidm:market`. -/
def cache_key (tidm market : String) : String :=
  tidm ++ ":" ++ market

/-- `disable_all_caching` default value. -/
def disable_all_caching_default : Bool := false

/-- `maximum_price_cache_age` (seconds). -/
def maximum_price_cache_age : Nat := 300

/-! ## Sheets

After formatting, income/balance sheets are pandas DataFrames indexed by a
line-item label, with one column per reporting period and numeric (or NaN)
cells.  A summary sheet keeps its values as text. -/

/-- A formatted income/balance sheet: period column labels plus rows of
(line-item label, cells); a `none` cell is a pandas `NaN`. -/
structure Sheet : Type where
  cols : List String
  rows : List (String × List (Option ℚ))
  deriving Repr, DecidableEq

/-- A merged, formatted summary sheet: rows of (item label, text value),
indexed by the item label. -/
def SummarySheet : Type := List (String × String)

instance : DecidableEq SummarySheet := by
  unfold SummarySheet
  infer_instance

/-- An unformatted table as produced by `pd.read_html` (with the first
column already separated out as the future row index): the remaining
column labels, and rows of (first-column value, remaining text cells). -/
structure RawTable : Type where
  cols : List String
  rows : List (String × List String)
  deriving Repr, DecidableEq

/-- Position of a column label in the column list (first occurrence). -/
def colIndex : List String → String → Option Nat
  | [], _ => none
  | c :: cs, col => if c = col then some 0 else (colIndex cs col).map (· + 1)

/-- `df.loc[row][col]` on a formatted sheet: find the row by label (first
match) and the column by label; a missing row or column raises `KeyError`. -/
def sheet_loc (df : Sheet) (row col : String) : Except PyErr (Option ℚ) :=
  match (df.rows.find? (fun r => r.1 = row)), colIndex df.cols col with
  | some r, some j =>
      match r.2.get? j with
      | some cell => .ok cell
      | none => .error .keyError
  | _, _ => .error .keyError

/-- `df_summary.loc[row][VALUE]` on a summary sheet. -/
def summary_loc (df : SummarySheet) (row : String) : Except PyErr String :=
  match List.find? (fun r => r.1 = row) df with
  | some r => .ok r.2
  | none => .error .keyError

/-- Python `max(df.columns)` (string maximum; raises on an empty
collection). -/
def max_cols (df : Sheet) : Except PyErr String :=
  match df.cols with
  | [] => .error .valueError
  | c :: cs => .ok (cs.foldl max c)

/-! ## Numeric coercion (`__format_ic_income_dataframe` /
`__format_ic_balance_dataframe`)

Each value column is cleaned with
`.replace('[\$,)]', '', regex=True).replace('[(]', '-', regex=True)`
(drop every `$`, `,`, `)` character, then turn every `(` into `-`), then
`pd.to_numeric(errors='coerce')` turns unparsable cells into NaN and
`.dropna(how='all')` drops rows that are NaN in every value column. -/

/-- The two character-class regex replacements applied to a cell. -/
def cleanChars (l : List Char) : List Char :=
  (l.filter (fun c => ¬ (c = '$' ∨ c = ',' ∨ c = ')'))).map
    (fun c => if c = '(' then '-' else c)

/-- Clean one cell and coerce it to a number; `none` is NaN. -/
def coerce_cell (s : String) : Option ℚ :=
  pythonFloat (cleanChars s.data)

/-- Coerce all cells of a row. -/
def coerce_row (r : String × List String) : String × List (Option ℚ) :=
  (r.1, r.2.map coerce_cell)

/-- `__format_ic_income_dataframe`: rename the first column to the
canonical line-item name and make it the index (already reflected in
`RawTable`), clean and coerce every value cell, and drop rows that are
entirely NaN. -/
def format_ic_income_dataframe (t : RawTable) : Sheet :=
  { cols := t.cols
    rows := (t.rows.map coerce_row).filter
      (fun r => !(r.2.all Option.isNone)) }

/-- The label cleaning the balance formatter performs: in
`__format_ic_balance_dataframe` the `[\$,)]` and `[(]` replacements run
over every column BEFORE `set_index` (unlike the income formatter, which
sets the index first), so the line-item labels themselves are cleaned as
text — e.g. "Unrealized gain (loss)" becomes "Unrealized gain -loss". -/
def clean_label (s : String) : String :=
  ⟨cleanChars s.data⟩

/-- Clean and coerce one balance row: the label is cleaned as text (it is
still an ordinary column when the replacements run), the value cells are
cleaned and coerced. -/
def balance_coerce_row (r : String × List String) :
    String × List (Option ℚ) :=
  (clean_label r.1, r.2.map coerce_cell)

/-- `__format_ic_balance_dataframe`: the same cell cleaning, numeric
coercion and all-NaN row dropping as the income formatter, except that
the replacements run before `set_index`, so the line-item labels are
cleaned too (`pd.to_numeric` then runs only over the value columns, the
labels having become the index). -/
def format_ic_balance_dataframe (t : RawTable) : Sheet :=
  { cols := t.cols
    rows := (t.rows.map balance_coerce_row).filter
      (fun r => !(r.2.all Option.isNone)) }

/-! ## URL templates -/

/-- `INCOME_URL.format(TIDM=tidm, MARKET=market)`. -/
def income_url (tidm market : String) : String :=
  "https://markets.investorschronicle.co.uk/data/equities/tearsheet/financials?s="
    ++ tidm ++ ":" ++ market ++ "&subview=IncomeStatement"

/-- `BALANCE_URL.format(TIDM=tidm, MARKET=market)`. -/
def balance_url (tidm market : String) : String :=
  "https://markets.investorschronicle.co.uk/data/equities/tearsheet/financials?s="
    ++ tidm ++ ":" ++ market ++ "&subview=BalanceSheet"

/-- `SUMMARY_URL.format(TIDM=tidm, MARKET=market)`. -/
def summary_url (tidm market : String) : String :=
  "https://markets.investorschronicle.co.uk/data/equities/tearsheet/summary?s="
    ++ tidm ++ ":" ++ market

/-! ## Sheet getters

Each getter is parameterised by a `produce` function standing for the
download / table-extraction / parse / format pipeline applied to the page
at a given URL (it can fail, e.g. `IndexError` when indexing into an
empty list of extracted tables).  Each getter returns the sheet, the
updated cache, and how many times `produce` was invoked during the call. -/

/-- `get_ic_income_sheet`: serve from `income_cache` unless
`disable_all_caching` is set; otherwise produce from the income URL and
store under the composite key. -/
def get_ic_income_sheet (disable_all_caching : Bool)
    (produce : String → Except PyErr Sheet) (income_cache : List (String × Sheet))
    (tidm market : String) :
    Except PyErr (Sheet × List (String × Sheet) × Nat) :=
  match (if disable_all_caching then none else lookupCache income_cache (cache_key tidm market)) with
  | some df => .ok (df, income_cache, 0)
  | none =>
      match produce (income_url tidm market) with
      | .error e => .error e
      | .ok df =>
          .ok (df, insertCache income_cache (cache_key tidm market) df, 1)

/-- `get_ic_balance_sheet`: same policy as the income getter, against
`balance_cache` and the balance URL. -/
def get_ic_balance_sheet (disable_all_caching : Bool)
    (produce : String → Except PyErr Sheet) (balance_cache : List (String × Sheet))
    (tidm market : String) :
    Except PyErr (Sheet × List (String × Sheet) × Nat) :=
  match (if disable_all_caching then none else lookupCache balance_cache (cache_key tidm market)) with
  | some df => .ok (df, balance_cache, 0)
  | none =>
      match produce (balance_url tidm market) with
      | .error e => .error e
      | .ok df =>
          .ok (df, insertCache balance_cache (cache_key tidm market) df, 1)

set_option linter.unusedVariables false in
/-- `get_ic_summary_sheet`: the cache check is
`if cache_key in self.summary_cache.keys():` — unlike the income and
balance getters it does not consult `disable_all_caching` (the parameter
is carried but, as in the source, never read). -/
def get_ic_summary_sheet (disable_all_caching : Bool)
    (produce : String → Except PyErr SummarySheet)
    (summary_cache : List (String × SummarySheet)) (tidm market : String) :
    Except PyErr (SummarySheet × List (String × SummarySheet) × Nat) :=
  match lookupCache summary_cache (cache_key tidm market) with
  | some df => .ok (df, summary_cache, 0)
  | none =>
      match produce (summary_url tidm market) with
      | .error e => .error e
      | .ok df =>
          .ok (df, insertCache summary_cache (cache_key tidm market) df, 1)

/-! ## Current price (`get_current_ic_price`) -/

/-- `IC_SUMMARY_DATA.PRICE_START_SEARCH_STRING`. -/
def PRICE_START_SEARCH_STRING : List Char :=
  "Price (GBX)</span><span class=\"mod-ui-data-list__value\">".data

/-- `IC_SUMMARY_DATA.PRICE_END_SEARCH_STRING`. -/
def PRICE_END_SEARCH_STRING : List Char :=
  "</span>".data

/-- The fetch-and-parse tail of `get_current_ic_price`: search the
downloaded page for the leading marker, then for the trailing marker
after it; if either is absent, log and return the sentinel 0.0 without
touching the cache; otherwise parse the text in between (commas
stripped) as a float and overwrite the cache entry for `key` with
`(now, price)`. -/
def fetch_ic_price (raw_html : List Char) (now : Nat)
    (price_cache : List (String × Nat × ℚ)) (key : String) :
    Except PyErr (ℚ × List (String × Nat × ℚ)) :=
  match findFrom PRICE_START_SEARCH_STRING raw_html 0 with
  | none => .ok (0, price_cache)
  | some p =>
      match findFrom PRICE_END_SEARCH_STRING raw_html
          (p + PRICE_START_SEARCH_STRING.length) with
      | none => .ok (0, price_cache)
      | some end_pos =>
          match pythonFloat
              ((pySlice raw_html (p + PRICE_START_SEARCH_STRING.length)
                end_pos).filter (· ≠ ',')) with
          | none => .error .valueError
          | some price => .ok (price, insertCache price_cache key (now, price))

/-- `get_current_ic_price`: if the key is cached and
`(datetime.now() - cached[0]).seconds <= maximum_price_cache_age` — note
`timedelta.seconds` is the seconds COMPONENT of the difference, i.e. the
age modulo 86400 (one day) — return the cached price; otherwise fetch and
parse the summary page.  The page text and the current time are passed
explicitly. -/
def get_current_ic_price (raw_html : List Char) (now : Nat)
    (price_cache : List (String × Nat × ℚ)) (tidm market : String) :
    Except PyErr (ℚ × List (String × Nat × ℚ)) :=
  match lookupCache price_cache (cache_key tidm market) with
  | some tv =>
      if (now - tv.1) % 86400 ≤ maximum_price_cache_age then
        .ok (tv.2, price_cache)
      else fetch_ic_price raw_html now price_cache (cache_key tidm market)
  | none => fetch_ic_price raw_html now price_cache (cache_key tidm market)

/-! ## Shares outstanding -/

/-- The trailing unit of the shares-outstanding text:
`str_shares_outstanding[-1:].upper()`. -/
def shares_unit (s : String) : List Char :=
  (s.data.drop (s.data.length - 1)).map Char.toUpper

/-- The unit-dependent conversion inside `get_shares_outstanding`, applied
to the summary text value: trailing `'M'` parses all but the last
character and multiplies by 10^6; trailing `'N'` parses all but the last
TWO characters (`str_shares_outstanding[:-2]`) and multiplies by 10^9; any
other unit logs an error and yields 0.  `float` failures raise
`ValueError`. -/
def parse_shares_outstanding (s : String) : Except PyErr ℚ :=
  if shares_unit s = ['M'] then
    match pythonFloat (s.data.take (s.data.length - 1)) with
    | some x => .ok (x * 1000000)
    | none => .error .valueError
  else if shares_unit s = ['N'] then
    match pythonFloat (s.data.take (s.data.length - 2)) with
    | some x => .ok (x * 1000000000)
    | none => .error .valueError
  else
    .ok 0

/-- `get_shares_outstanding`, starting from an already-produced summary
sheet: look up the "Shares outstanding" row and convert its text value. -/
def get_shares_outstanding (df_summary : SummarySheet) : Except PyErr ℚ :=
  match summary_loc df_summary "Shares outstanding" with
  | .error e => .error e
  | .ok s => parse_shares_outstanding s

/-- `get_eps`, starting from an already-produced summary sheet and income
sheet: `ebit = float(income.loc['Net income before taxes'][max(cols)]) *
1000000; eps = ebit / shares_outstanding`.  A NaN income cell gives a NaN
EPS (`.ok none`); a zero shares-outstanding value raises
`ZeroDivisionError` (Python float division by zero). -/
def get_eps (df_summary : SummarySheet) (df_income : Sheet) :
    Except PyErr (Option ℚ) :=
  match get_shares_outstanding df_summary with
  | .error e => .error e
  | .ok shares_outstanding =>
      match max_cols df_income with
      | .error e => .error e
      | .ok latest_data =>
          match sheet_loc df_income "Net income before taxes" latest_data with
          | .error e => .error e
          | .ok cell =>
              if shares_outstanding = 0 then .error .zeroDivisionError
              else .ok (cell.map (fun x => x * 1000000 / shares_outstanding))

/-! ## Claim C1 -/

theorem string_data_append (a b : String) : (a ++ b).data = a.data ++ b.data :=
  rfl

theorem take_append_one (l : List Char) (c : Char) :
    (l ++ [c]).take ((l ++ [c]).length - 1) = l := by
  have h : (l ++ [c]).length - 1 = l.length := by simp
  rw [h, List.take_left]

theorem drop_append_one (l : List Char) (c : Char) :
    (l ++ [c]).drop ((l ++ [c]).length - 1) = [c] := by
  have h : (l ++ [c]).length - 1 = l.length := by simp
  rw [h, List.drop_left]

theorem take_append_two (l : List Char) (c d : Char) :
    (l ++ [c, d]).take ((l ++ [c, d]).length - 2) = l := by
  have h : (l ++ [c, d]).length - 2 = l.length := by simp
  rw [h]
  have h2 : l ++ [c, d] = l ++ ([c] ++ [d]) := by simp
  rw [h2, ← List.append_assoc, List.take_append_of_le_length (by simp),
    List.take_left]

theorem drop_append_two (l : List Char) (c d : Char) :
    (l ++ [c, d]).drop ((l ++ [c, d]).length - 1) = [d] := by
  have h2 : l ++ [c, d] = (l ++ [c]) ++ [d] := by simp
  rw [h2]
  have h : ((l ++ [c]) ++ [d]).length - 1 = (l ++ [c]).length := by simp
  rw [h, List.drop_left]

/-- C1 counterexample: the claim predicts that `"1.2N"` (numeric prefix
`1.2`, i.e. `6/5`) yields `1.2 × 10⁹ = 1,200,000,000`, but
`get_shares_outstanding` strips the last TWO characters in the `'N'`
branch, so the code parses `"1."` (= 1.0) and yields `1,000,000,000`. -/
theorem c1_shares_n_counterexample :
    pythonFloat "1.2".data = some (6 / 5) ∧
    parse_shares_outstanding "1.2N" = Except.ok 1000000000 ∧
    parse_shares_outstanding "1.2N" ≠ Except.ok ((6 / 5) * 1000000000) := by
  refine ⟨?_, ?_, ?_⟩
  · simp +decide [pythonFloat, parseUnsignedFloat, decDigitsNat]
    norm_num
  · simp +decide [parse_shares_outstanding, shares_unit, pythonFloat,
      parseUnsignedFloat, decDigitsNat]
  · simp +decide [parse_shares_outstanding, shares_unit, pythonFloat,
      parseUnsignedFloat, decDigitsNat]
    norm_num

/-- C1 (amended): `get_shares_outstanding` parses the summary text by its
trailing unit letter, stripping ONE trailing character in the `'M'` branch
but TWO in the `'N'` branch (the billions suffix is coded `"bn"` in the
source data): for every numeric prefix `x`, `x ++ "M"` yields
`x * 1,000,000` and `x ++ "bn"` yields `x * 1,000,000,000` (so `"1.2N"`
yields `1,000,000,000.0`, not `1,200,000,000.0`), and any other trailing
unit (such as in `"12.5X"`) yields 0 with an error condition reported
(its unit is recognised as neither `'M'` nor `'N'`). -/
theorem c1_shares_outstanding_units (s : String) (x : ℚ)
    (h : pythonFloat s.data = some x) :
    parse_shares_outstanding (s ++ "M") = Except.ok (x * 1000000) ∧
    parse_shares_outstanding (s ++ "bn") = Except.ok (x * 1000000000) ∧
    parse_shares_outstanding "1.2N" = Except.ok 1000000000 ∧
    parse_shares_outstanding "12.5X" = Except.ok 0 ∧
    shares_unit "12.5X" ≠ ['M'] ∧ shares_unit "12.5X" ≠ ['N'] := by
  have hm : (s ++ "M").data = s.data ++ ['M'] := rfl
  have hbn : (s ++ "bn").data = s.data ++ ['b', 'n'] := rfl
  refine ⟨?_, ?_, ?_, by simp +decide [parse_shares_outstanding, shares_unit],
    by decide, by decide⟩
  · have hunit : shares_unit (s ++ "M") = ['M'] := by
      unfold shares_unit
      rw [hm, drop_append_one]
      decide
    unfold parse_shares_outstanding
    rw [hunit, if_pos rfl, hm, take_append_one, h]
  · have hunit : shares_unit (s ++ "bn") = ['N'] := by
      unfold shares_unit
      rw [hbn, drop_append_two]
      decide
    unfold parse_shares_outstanding
    rw [hunit]
    have hne : (['N'] : List Char) ≠ ['M'] := by decide
    rw [if_neg hne, if_pos rfl, hbn, take_append_two, h]
  · simp +decide [parse_shares_outstanding, shares_unit, pythonFloat,
      parseUnsignedFloat, decDigitsNat]

/-- Witness for `c1_shares_outstanding_units` at `s = "12.5"`,
`x = 12.5 = 25/2`. -/
theorem c1_shares_outstanding_units_witness :
    parse_shares_outstanding ("12.5" ++ "M") = Except.ok ((25 / 2) * 1000000) :=
  (c1_shares_outstanding_units "12.5" (25 / 2) (by
    simp +decide [pythonFloat, parseUnsignedFloat, decDigitsNat]
    norm_num)).1

/-! ## Claim C5 -/

/-- C5 counterexample: with a summary sheet whose "Shares outstanding"
text has the unrecognised unit `'X'` (so shares outstanding parses to 0)
and a perfectly healthy income sheet, `get_eps` does not "return without
raising": the division `ebit / shares_outstanding` raises
`ZeroDivisionError` to the caller. -/
theorem c5_eps_raises_counterexample :
    get_eps [("Shares outstanding", "12.5X")]
        ⟨["2023"], [("Net income before taxes", [some 100])]⟩ =
      Except.error PyErr.zeroDivisionError := by
  simp +decide [get_eps, get_shares_outstanding, summary_loc, max_cols,
    sheet_loc, colIndex, parse_shares_outstanding, shares_unit]

/-- C5 (amended): scraping operations fail soft for expected
irregularities — in particular `get_shares_outstanding` itself returns the
sentinel 0 without raising when the trailing unit is unrecognised — but
the downstream metric `get_eps` then divides by that 0 and raises
`ZeroDivisionError` to the caller instead of returning. -/
theorem c5_shares_soft_but_eps_raises (df_summary : SummarySheet)
    (df_income : Sheet) (s latest : String) (cell : Option ℚ)
    (hs : summary_loc df_summary "Shares outstanding" = Except.ok s)
    (hM : shares_unit s ≠ ['M']) (hN : shares_unit s ≠ ['N'])
    (hmax : max_cols df_income = Except.ok latest)
    (hcell : sheet_loc df_income "Net income before taxes" latest =
      Except.ok cell) :
    get_shares_outstanding df_summary = Except.ok 0 ∧
    get_eps df_summary df_income = Except.error PyErr.zeroDivisionError := by
  have h0 : parse_shares_outstanding s = Except.ok 0 := by
    unfold parse_shares_outstanding
    rw [if_neg hM, if_neg hN]
  have hso : get_shares_outstanding df_summary = Except.ok 0 := by
    unfold get_shares_outstanding
    rw [hs]
    exact h0
  refine ⟨hso, ?_⟩
  unfold get_eps
  rw [hso]
  simp only [hmax, hcell]
  simp

/-- Witness for `c5_shares_soft_but_eps_raises` on a concrete summary
sheet with unit `'Z'` and a one-column income sheet. -/
theorem c5_shares_soft_but_eps_raises_witness :
    get_shares_outstanding [("Shares outstanding", "7Z")] = Except.ok 0 ∧
    get_eps [("Shares outstanding", "7Z")]
        ⟨["2022"], [("Net income before taxes", [some 50])]⟩ =
      Except.error PyErr.zeroDivisionError :=
  c5_shares_soft_but_eps_raises [("Shares outstanding", "7Z")]
    ⟨["2022"], [("Net income before taxes", [some 50])]⟩ "7Z" "2022" (some 50)
    (by simp +decide [summary_loc]) (by decide) (by decide)
    (by simp +decide [max_cols]) (by simp +decide [sheet_loc, colIndex])

/-! ## Claim C3 -/

/-- C3 counterexample: with the global disable-caching flag SET, an
existing summary-cache entry, and a producer that would return a
different sheet, `get_ic_summary_sheet` still returns the cached entry
and never invokes the producer — the summary getter does not consult
`disable_all_caching`. -/
theorem c3_summary_ignores_disable_counterexample :
    get_ic_summary_sheet true
        (fun _ => Except.ok ([("Open", "2")] : SummarySheet))
        [(cache_key "TSCO" "LSE", ([("Open", "1")] : SummarySheet))]
        "TSCO" "LSE" =
      Except.ok ([("Open", "1")],
        [(cache_key "TSCO" "LSE", [("Open", "1")])], 0) ∧
    ([("Open", "1")] : SummarySheet) ≠ [("Open", "2")] := by
  constructor
  · rfl
  · decide

/-- C3 (amended): when the global disable-caching flag is set, the income
and balance sheet getters ignore any existing cache entry and re-fetch,
re-parse and re-store from the website; the summary getter, however,
consults only cache membership and returns an existing entry even when
the flag is set. -/
theorem c3_disable_caching_flag (produce_i produce_b : String → Except PyErr Sheet)
    (sproduce : String → Except PyErr SummarySheet)
    (ci cb : List (String × Sheet)) (cs : List (String × SummarySheet))
    (tidm market : String) (si sb : Sheet) (ss : SummarySheet)
    (hi : produce_i (income_url tidm market) = Except.ok si)
    (hb : produce_b (balance_url tidm market) = Except.ok sb)
    (hs : lookupCache cs (cache_key tidm market) = some ss) :
    get_ic_income_sheet true produce_i ci tidm market =
      Except.ok (si, insertCache ci (cache_key tidm market) si, 1) ∧
    get_ic_balance_sheet true produce_b cb tidm market =
      Except.ok (sb, insertCache cb (cache_key tidm market) sb, 1) ∧
    get_ic_summary_sheet true sproduce cs tidm market =
      Except.ok (ss, cs, 0) := by
  refine ⟨?_, ?_, ?_⟩
  · unfold get_ic_income_sheet
    rw [if_pos rfl, hi]
  · unfold get_ic_balance_sheet
    rw [if_pos rfl, hb]
  · unfold get_ic_summary_sheet
    rw [hs]

/-- Witness for `c3_disable_caching_flag` with constant producers, empty
income/balance caches and a one-entry summary cache. -/
theorem c3_disable_caching_flag_witness :
    get_ic_income_sheet true (fun _ => Except.ok (⟨[], []⟩ : Sheet)) []
        "TSCO" "LSE" =
      Except.ok (⟨[], []⟩, insertCache [] (cache_key "TSCO" "LSE") ⟨[], []⟩, 1) ∧
    get_ic_balance_sheet true (fun _ => Except.ok (⟨[], []⟩ : Sheet)) []
        "TSCO" "LSE" =
      Except.ok (⟨[], []⟩, insertCache [] (cache_key "TSCO" "LSE") ⟨[], []⟩, 1) ∧
    get_ic_summary_sheet true (fun _ => Except.ok ([] : SummarySheet))
        [(cache_key "TSCO" "LSE", ([("Open", "1")] : SummarySheet))]
        "TSCO" "LSE" =
      Except.ok ([("Open", "1")],
        [(cache_key "TSCO" "LSE", [("Open", "1")])], 0) :=
  c3_disable_caching_flag (fun _ => Except.ok ⟨[], []⟩)
    (fun _ => Except.ok ⟨[], []⟩) (fun _ => Except.ok [])
    [] [] [(cache_key "TSCO" "LSE", [("Open", "1")])]
    "TSCO" "LSE" ⟨[], []⟩ ⟨[], []⟩ [("Open", "1")]
    rfl rfl (by simp +decide [lookupCache])

/-! ## Claim C6 -/

/-- C6: with caching enabled (`disable_all_caching = false`) and the key
not yet cached, two consecutive income (resp. balance) sheet gets for the
same instrument key return identical sheet content; the producer is
invoked exactly once, on the first call, and not at all on the second. -/
theorem c6_cache_idempotent (produce_i produce_b : String → Except PyErr Sheet)
    (ci cb : List (String × Sheet)) (tidm market : String) (si sb : Sheet)
    (hmiss_i : lookupCache ci (cache_key tidm market) = none)
    (hp_i : produce_i (income_url tidm market) = Except.ok si)
    (hmiss_b : lookupCache cb (cache_key tidm market) = none)
    (hp_b : produce_b (balance_url tidm market) = Except.ok sb) :
    get_ic_income_sheet false produce_i ci tidm market =
      Except.ok (si, insertCache ci (cache_key tidm market) si, 1) ∧
    get_ic_income_sheet false produce_i
        (insertCache ci (cache_key tidm market) si) tidm market =
      Except.ok (si, insertCache ci (cache_key tidm market) si, 0) ∧
    get_ic_balance_sheet false produce_b cb tidm market =
      Except.ok (sb, insertCache cb (cache_key tidm market) sb, 1) ∧
    get_ic_balance_sheet false produce_b
        (insertCache cb (cache_key tidm market) sb) tidm market =
      Except.ok (sb, insertCache cb (cache_key tidm market) sb, 0) := by
  refine ⟨?_, ?_, ?_, ?_⟩
  · unfold get_ic_income_sheet
    rw [if_neg (by simp), hmiss_i, hp_i]
  · unfold get_ic_income_sheet
    rw [if_neg (by simp), lookupCache_insertCache_self]
  · unfold get_ic_balance_sheet
    rw [if_neg (by simp), hmiss_b, hp_b]
  · unfold get_ic_balance_sheet
    rw [if_neg (by simp), lookupCache_insertCache_self]

/-- Witness for `c6_cache_idempotent` with constant producers and empty
caches. -/
theorem c6_cache_idempotent_witness :
    get_ic_income_sheet false (fun _ => Except.ok (⟨["2023"], []⟩ : Sheet)) []
        "VOD" "LSE" =
      Except.ok (⟨["2023"], []⟩,
        insertCache [] (cache_key "VOD" "LSE") ⟨["2023"], []⟩, 1) :=
  (c6_cache_idempotent (fun _ => Except.ok ⟨["2023"], []⟩)
    (fun _ => Except.ok ⟨["2023"], []⟩) [] [] "VOD" "LSE"
    ⟨["2023"], []⟩ ⟨["2023"], []⟩ rfl rfl rfl rfl).1

/-! ## Claims C2 and C10 -/

/-- C10: when `get_current_ic_price` actually fetches (no cache entry, or
a stale one) and either the leading or the trailing price marker is
absent from the downloaded page, it returns the sentinel 0.0 and leaves
the price cache entirely unchanged — any previously cached
(timestamp, value) pair for the key survives the failed call. -/
theorem c10_failed_price_fetch_preserves_cache (raw_html : List Char)
    (now : Nat) (price_cache : List (String × Nat × ℚ)) (tidm market : String)
    (hstale : ∀ t0 v,
      lookupCache price_cache (cache_key tidm market) = some (t0, v) →
      maximum_price_cache_age < (now - t0) % 86400)
    (hmarker : findFrom PRICE_START_SEARCH_STRING raw_html 0 = none ∨
      ∃ p, findFrom PRICE_START_SEARCH_STRING raw_html 0 = some p ∧
        findFrom PRICE_END_SEARCH_STRING raw_html
          (p + PRICE_START_SEARCH_STRING.length) = none) :
    get_current_ic_price raw_html now price_cache tidm market =
      Except.ok (0, price_cache) := by
  have hfetch : fetch_ic_price raw_html now price_cache
      (cache_key tidm market) = Except.ok (0, price_cache) := by
    unfold fetch_ic_price
    rcases hmarker with h | ⟨p, hp, hend⟩
    · rw [h]
    · rw [hp]
      simp only [hend]
  unfold get_current_ic_price
  cases h : lookupCache price_cache (cache_key tidm market) with
  | none => exact hfetch
  | some tv =>
      obtain ⟨t0, v⟩ := tv
      have hgt := hstale t0 v h
      show (if (now - t0) % 86400 ≤ maximum_price_cache_age then
          Except.ok (v, price_cache)
        else fetch_ic_price raw_html now price_cache (cache_key tidm market)) =
        Except.ok (0, price_cache)
      rw [if_neg (by omega)]
      exact hfetch

/-- Witness for `c10_failed_price_fetch_preserves_cache`: a page with no
markers at all, and a cache holding a stale entry for the key. -/
theorem c10_failed_price_fetch_preserves_cache_witness :
    get_current_ic_price "no markers here".data 1000
        [(cache_key "TSCO" "LSE", (0, 50))] "TSCO" "LSE" =
      Except.ok (0, [(cache_key "TSCO" "LSE", (0, 50))]) :=
  c10_failed_price_fetch_preserves_cache "no markers here".data 1000
    [(cache_key "TSCO" "LSE", (0, 50))] "TSCO" "LSE"
    (by
      intro t0 v h
      simp +decide [lookupCache, cache_key] at h
      obtain ⟨rfl, rfl⟩ := h
      decide)
    (Or.inl (by decide))

/-- C2: evaluation of `get_current_ic_price` on the failing input.  With
a price cached at `t0 = 0` and a page whose markers surround `"99"`:
at `now = 299` the cached value 50 is served (the claim's example holds),
at `now = 301` a re-fetch occurs, parses 99 and overwrites the entry
(the claim's example holds), but at `now = 86401` — one day plus one
second, far older than `maxAge = 300` — the code computes
`timedelta.seconds = 86401 % 86400 = 1 ≤ 300` and serves the stale cached
value instead of re-fetching. -/
theorem c2_price_ttl_seconds_component :
    (get_current_ic_price
        (PRICE_START_SEARCH_STRING ++ "99".data ++ PRICE_END_SEARCH_STRING)
        299 [(cache_key "TSCO" "LSE", (0, 50))] "TSCO" "LSE" =
      Except.ok (50, [(cache_key "TSCO" "LSE", (0, 50))])) ∧
    (get_current_ic_price
        (PRICE_START_SEARCH_STRING ++ "99".data ++ PRICE_END_SEARCH_STRING)
        301 [(cache_key "TSCO" "LSE", (0, 50))] "TSCO" "LSE" =
      Except.ok (99, [(cache_key "TSCO" "LSE", (301, 99))])) ∧
    (get_current_ic_price
        (PRICE_START_SEARCH_STRING ++ "99".data ++ PRICE_END_SEARCH_STRING)
        86401 [(cache_key "TSCO" "LSE", (0, 50))] "TSCO" "LSE" =
      Except.ok (50, [(cache_key "TSCO" "LSE", (0, 50))])) := by
  refine ⟨?_, ?_, ?_⟩
  · unfold get_current_ic_price
    simp +decide [lookupCache, cache_key]
  · unfold get_current_ic_price
    simp +decide [lookupCache, cache_key, fetch_ic_price, findFrom, subFind,
      pfx, pySlice, PRICE_START_SEARCH_STRING, PRICE_END_SEARCH_STRING,
      pythonFloat, parseUnsignedFloat, decDigitsNat, insertCache]
  · unfold get_current_ic_price
    simp +decide [lookupCache, cache_key]

/-! ## Claim C8 -/

/-- C8: numeric coercion during income/balance normalisation maps
`"(1,234)"` to `-1234.0` and `"$2,500"` to `2500.0` (currency symbols and
thousands separators stripped, parenthesised values negative), maps
non-numeric cell text (e.g. `"n/a"`) to missing, and drops exactly the
rows whose cells are all missing — for both the income and the balance
formatter.  For each formatter: the formatted rows are a sublist of the
coerced input rows, every input row with at least one non-missing coerced
cell survives (in order), and every surviving row has a non-missing
cell.  The balance formatter differs only in cleaning the line-item
labels as well (its replacements run before `set_index`), e.g.
"Unrealized gain (loss)" becomes "Unrealized gain -loss". -/
theorem c8_numeric_coercion :
    coerce_cell "(1,234)" = some (-1234) ∧
    coerce_cell "$2,500" = some 2500 ∧
    coerce_cell "n/a" = none ∧
    clean_label "Unrealized gain (loss)" = "Unrealized gain -loss" ∧
    ∀ t : RawTable,
      List.Sublist (format_ic_income_dataframe t).rows
          (t.rows.map coerce_row) ∧
      (∀ r, r ∈ t.rows → ¬((coerce_row r).2.all Option.isNone = true) →
        coerce_row r ∈ (format_ic_income_dataframe t).rows) ∧
      (∀ r, r ∈ (format_ic_income_dataframe t).rows →
        ¬(r.2.all Option.isNone = true)) ∧
      List.Sublist (format_ic_balance_dataframe t).rows
          (t.rows.map balance_coerce_row) ∧
      (∀ r, r ∈ t.rows →
        ¬((balance_coerce_row r).2.all Option.isNone = true) →
        balance_coerce_row r ∈ (format_ic_balance_dataframe t).rows) ∧
      (∀ r, r ∈ (format_ic_balance_dataframe t).rows →
        ¬(r.2.all Option.isNone = true)) := by
  refine ⟨?_, ?_, ?_, ?_, ?_⟩
  · simp +decide [coerce_cell, cleanChars, pythonFloat, parseUnsignedFloat,
      decDigitsNat]
  · simp +decide [coerce_cell, cleanChars, pythonFloat, parseUnsignedFloat,
      decDigitsNat]
  · simp +decide [coerce_cell, cleanChars, pythonFloat, parseUnsignedFloat,
      decDigitsNat]
  · decide
  · intro t
    refine ⟨List.filter_sublist _, ?_, ?_, List.filter_sublist _, ?_, ?_⟩
    · intro r hr hnot
      unfold format_ic_income_dataframe
      refine List.mem_filter.mpr ⟨List.mem_map_of_mem coerce_row hr, ?_⟩
      simpa using hnot
    · intro r hr
      have := List.of_mem_filter hr
      simpa using this
    · intro r hr hnot
      unfold format_ic_balance_dataframe
      refine List.mem_filter.mpr
        ⟨List.mem_map_of_mem balance_coerce_row hr, ?_⟩
      simpa using hnot
    · intro r hr
      have := List.of_mem_filter hr
      simpa using this

/-- Witness for `c8_numeric_coercion`: a coerced income row with one
numeric cell survives income formatting, and a balance row whose label
contains parentheses survives balance formatting with a cleaned label. -/
theorem c8_numeric_coercion_witness :
    coerce_row ("Revenue", ["$2,500"]) ∈
      (format_ic_income_dataframe
        ⟨["2023"], [("Revenue", ["$2,500"]), ("Junk", ["n/a"])]⟩).rows ∧
    balance_coerce_row ("Unrealized gain (loss)", ["(1,234)"]) ∈
      (format_ic_balance_dataframe
        ⟨["2023"], [("Unrealized gain (loss)", ["(1,234)"]),
          ("Junk", ["--"])]⟩).rows :=
  ⟨((c8_numeric_coercion.2.2.2.2
      ⟨["2023"], [("Revenue", ["$2,500"]), ("Junk", ["n/a"])]⟩).2.1
    ("Revenue", ["$2,500"]) (by simp)
    (by simp +decide [coerce_row, coerce_cell, cleanChars, pythonFloat,
      parseUnsignedFloat, decDigitsNat])),
  ((c8_numeric_coercion.2.2.2.2
      ⟨["2023"], [("Unrealized gain (loss)", ["(1,234)"]),
        ("Junk", ["--"])]⟩).2.2.2.2.1
    ("Unrealized gain (loss)", ["(1,234)"]) (by simp)
    (by simp +decide [balance_coerce_row, coerce_cell, cleanChars,
      pythonFloat, parseUnsignedFloat, decDigitsNat]))⟩

/-! ## Historical prices (`YahooPricesInterface` / `PricesInterface`) -/

/-- A historical OHLC price series DataFrame: column labels and
date-indexed rows. -/
structure YSeries : Type where
  cols : List String
  rows : List (String × List ℚ)
  deriving Repr, DecidableEq

/-- `PricesInterface._rename_column`: rename one column label. -/
def rename_column (df : YSeries) (old_name new_name : String) : YSeries :=
  ⟨df.cols.map (fun c => if c = old_name then new_name else c), df.rows⟩

/-- Keep only the first row for each date index (pandas
`df[~df.index.duplicated(keep='first')]`). -/
def dedupKeepFirst : List (String × List ℚ) → List String → List (String × List ℚ)
  | [], _ => []
  | (d, v) :: rest, seen =>
      if d ∈ seen then dedupKeepFirst rest seen
      else (d, v) :: dedupKeepFirst rest (d :: seen)

/-- `PricesInterface._remove_duplicate_rows_from_dataframe`. -/
def remove_duplicate_rows_from_dataframe (df : YSeries) : YSeries :=
  ⟨df.cols, dedupKeepFirst df.rows []⟩

/-- `YahooPricesInterface.get_yahoo_prices`: NOTE the cache is keyed by
`tidm` ALONE (`self.prices_cache[tidm]`), not by the composite
`tidm:market` key the IC caches use.  `feed` stands for
`pdr.DataReader('{tidm}.{market}', 'yahoo', ...)`, with `none` modelling
a raised exception (caught; an empty DataFrame is returned and the cache
is left untouched). -/
def get_yahoo_prices (feed : String → Option YSeries)
    (prices_cache : List (String × YSeries)) (tidm market : String)
    (force_cache_refresh : Bool) : YSeries × List (String × YSeries) :=
  match (if force_cache_refresh then none else lookupCache prices_cache tidm) with
  | some df => (df, prices_cache)
  | none =>
      match feed (tidm ++ "." ++ market) with
      | none => (⟨[], []⟩, prices_cache)
      | some df =>
          let df1 := remove_duplicate_rows_from_dataframe df
          let df2 := rename_column (rename_column (rename_column
            (rename_column (rename_column df1 "Close" "CLOSE")
              "High" "HIGH") "Low" "LOW") "Open" "OPEN")
            "Adj Close" "ADJ CLOSE"
          (df2, insertCache prices_cache tidm df2)

/-! ## Claim C4 -/

/-- C4 counterexample: the historical price series cache is NOT keyed by
the composite instrument key.  With a series cached under ticker "TSCO"
(originally fetched for market "L") and a feed that would return a
different series, a request for "TSCO" on market "NYSE" is served from
the cache: the market component plays no role in the key. -/
theorem c4_yahoo_cache_ignores_market_counterexample :
    get_yahoo_prices (fun _ => some ⟨["Close"], [("2023-01-05", [2])]⟩)
        [("TSCO", ⟨["CLOSE"], [("2023-01-04", [1])]⟩)] "TSCO" "NYSE" false =
      (⟨["CLOSE"], [("2023-01-04", [1])]⟩,
        [("TSCO", ⟨["CLOSE"], [("2023-01-04", [1])]⟩)]) ∧
    (⟨["CLOSE"], [("2023-01-04", [1])]⟩ : YSeries) ≠
      ⟨["Close"], [("2023-01-05", [2])]⟩ := by
  constructor
  · rfl
  · simp +decide

theorem colon_append_inj (l1 r1 l2 r2 : List Char) (h1 : ':' ∉ l1)
    (h2 : ':' ∉ l2) (h : l1 ++ ':' :: r1 = l2 ++ ':' :: r2) :
    l1 = l2 ∧ r1 = r2 := by
  induction l1 generalizing l2 with
  | nil =>
      cases l2 with
      | nil => simpa using h
      | cons c cs =>
          simp only [List.nil_append, List.cons_append, List.cons.injEq] at h
          exact absurd (h.1 ▸ List.mem_cons_self c cs) (h.1 ▸ h2)
  | cons c cs ih =>
      cases l2 with
      | nil =>
          simp only [List.nil_append, List.cons_append, List.cons.injEq] at h
          exact absurd (h.1 ▸ List.mem_cons_self c cs) (by
            rw [← h.1]
            exact fun hc => h1 (h.1 ▸ hc))
      | cons d ds =>
          simp only [List.cons_append, List.cons.injEq] at h
          obtain ⟨rfl, htl⟩ := h
          have h1' : ':' ∉ cs := fun hc => h1 (List.mem_cons_of_mem _ hc)
          have h2' : ':' ∉ ds := fun hc => h2 (List.mem_cons_of_mem _ hc)
          obtain ⟨hcs, hr⟩ := ih ds h1' h2' htl
          exact ⟨by rw [hcs], hr⟩

/-- C4 (amended): the Investors Chronicle sheet and price caches key by
the composite `"{tidm}:{market}"`, and for components not containing the
separator `':'` two composite keys are equal iff both the ticker and the
market components are equal (case-sensitively); the historical price
series cache, however, keys by the ticker alone, so a cached series is
served for any requested market. -/
theorem c4_instrument_cache_keys (t1 m1 t2 m2 : String)
    (h1 : ':' ∉ t1.data) (h2 : ':' ∉ t2.data) :
    (cache_key t1 m1 = cache_key t2 m2 ↔ (t1 = t2 ∧ m1 = m2)) ∧
    (∀ (feed : String → Option YSeries) (cache : List (String × YSeries))
      (tidm market : String) (df : YSeries),
        lookupCache cache tidm = some df →
        get_yahoo_prices feed cache tidm market false = (df, cache)) := by
  constructor
  · constructor
    · intro h
      have hd := congrArg String.data h
      have hd' : t1.data ++ ':' :: m1.data = t2.data ++ ':' :: m2.data := by
        have e1 : (cache_key t1 m1).data = t1.data ++ ':' :: m1.data := by
          show (t1 ++ ":" ++ m1).data = _
          rw [string_data_append, string_data_append]
          simp +decide
        have e2 : (cache_key t2 m2).data = t2.data ++ ':' :: m2.data := by
          show (t2 ++ ":" ++ m2).data = _
          rw [string_data_append, string_data_append]
          simp +decide
        rw [← e1, ← e2, hd]
      obtain ⟨ha, hb⟩ := colon_append_inj _ _ _ _ h1 h2 hd'
      exact ⟨String.ext ha, String.ext hb⟩
    · rintro ⟨rfl, rfl⟩
      rfl
  · intro feed cache tidm market df h
    unfold get_yahoo_prices
    simp only [if_false, Bool.false_eq_true, h]

/-- Witness for `c4_instrument_cache_keys` at colon-free components and a
one-entry historical cache. -/
theorem c4_instrument_cache_keys_witness :
    get_yahoo_prices (fun _ => none)
        [("AZN", ⟨["CLOSE"], []⟩)] "AZN" "XYZ" false =
      (⟨["CLOSE"], []⟩, [("AZN", ⟨["CLOSE"], []⟩)]) :=
  (c4_instrument_cache_keys "TSCO" "LSE" "TSCO" "LSE" (by decide) (by decide)).2
    (fun _ => none) [("AZN", ⟨["CLOSE"], []⟩)] "AZN" "XYZ" ⟨["CLOSE"], []⟩
    (by simp +decide [lookupCache])

/-! ## Table extraction (`extract_tables_from_raw_html`)

The Python loop searches `data` with absolute positions:

    table_tag_start_pos = data.find('<table')
    while table_tag_start_pos != -1:
        table_tag_end_pos = data.find('</table>', table_tag_start_pos)
        tables.append(data[table_tag_start_pos:table_tag_end_pos + 8])
        table_tag_start_pos = data.find('<table', table_tag_end_pos + 8)

When `'</table>'` is not found, `table_tag_end_pos = -1`, so the slice is
`data[start:7]` and the next search starts at index `7`; in that
situation the Python loop can rediscover the same `'<table'` forever, so
the model carries fuel (`data.length + 1`, enough for every terminating
run, since each found fragment advances the position). -/

/-- The opening table delimiter `'<table'`. -/
def table_tag_open : List Char := "<table".data

/-- The closing table delimiter `'</table>'`. -/
def table_tag_close : List Char := "</table>".data

/-- The scan loop of `extract_tables_from_raw_html` (fuelled). -/
def extractGo (data : List Char) :
    Nat → Option Nat → List (List Char) → List (List Char)
  | _, none, tables => tables
  | 0, some _, tables => tables
  | fuel + 1, some table_tag_start_pos, tables =>
      match findFrom table_tag_close data table_tag_start_pos with
      | some table_tag_end_pos =>
          extractGo data fuel
            (findFrom table_tag_open data
              (table_tag_end_pos + table_tag_close.length))
            (tables ++ [pySlice data table_tag_start_pos
              (table_tag_end_pos + table_tag_close.length)])
      | none =>
          extractGo data fuel
            (findFrom table_tag_open data (table_tag_close.length - 1))
            (tables ++ [pySlice data table_tag_start_pos
              (table_tag_close.length - 1)])

/-- `FinancialWebsiteInterface.extract_tables_from_raw_html`. -/
def extract_tables_from_raw_html (data : List Char) : List (List Char) :=
  extractGo data (data.length + 1) (findFrom table_tag_open data 0) []

/-! ### Facts about `pfx` and `subFind` -/

theorem pfx_append_self (p r : List Char) : pfx p (p ++ r) = true := by
  induction p with
  | nil => rfl
  | cons c cs ih => simp [pfx, ih]

theorem pfx_length_le (p : List Char) :
    ∀ l : List Char, pfx p l = true → p.length ≤ l.length := by
  induction p with
  | nil => intro l _; simp
  | cons c cs ih =>
      intro l h
      cases l with
      | nil => simp [pfx] at h
      | cons b bs =>
          simp only [pfx] at h
          by_cases hc : c = b
          · rw [if_pos hc] at h
            simpa using ih bs h
          · rw [if_neg hc] at h
            exact absurd h (by simp)

theorem pfx_eq_of_length_le (p : List Char) :
    ∀ l : List Char, pfx p l = true → l.length ≤ p.length → p = l := by
  induction p with
  | nil =>
      intro l _ hlen
      cases l with
      | nil => rfl
      | cons b bs => simp at hlen
  | cons c cs ih =>
      intro l h hlen
      cases l with
      | nil => simp [pfx] at h
      | cons b bs =>
          simp only [pfx] at h
          by_cases hc : c = b
          · rw [if_pos hc] at h
            have := ih bs h (by simpa using hlen)
            rw [hc, this]
          · rw [if_neg hc] at h
            exact absurd h (by simp)

theorem pfx_head_eq (p : List Char) :
    ∀ l : List Char, pfx p l = true → p ≠ [] → p.head? = l.head? := by
  intro l h hne
  cases p with
  | nil => exact absurd rfl hne
  | cons c cs =>
      cases l with
      | nil => simp [pfx] at h
      | cons b bs =>
          simp only [pfx] at h
          by_cases hc : c = b
          · simp [hc]
          · rw [if_neg hc] at h
            exact absurd h (by simp)

theorem pfx_append_iff : ∀ (a p b : List Char),
    pfx p (a ++ b) = true ↔
      (pfx p a = true ∨
        (pfx a p = true ∧ pfx (p.drop a.length) b = true)) := by
  intro a
  induction a with
  | nil =>
      intro p b
      cases p with
      | nil => simp [pfx]
      | cons x xs => simp [pfx]
  | cons c cs ih =>
      intro p b
      cases p with
      | nil => simp [pfx]
      | cons x xs =>
          have hstep : pfx (x :: xs) ((c :: cs) ++ b) =
              if x = c then pfx xs (cs ++ b) else false := rfl
          have h1 : pfx (x :: xs) (c :: cs) =
              if x = c then pfx xs cs else false := rfl
          have h2 : pfx (c :: cs) (x :: xs) =
              if c = x then pfx cs xs else false := rfl
          have h3 : (x :: xs).drop (c :: cs).length = xs.drop cs.length := by
            simp
          rw [hstep, h1, h2, h3]
          by_cases hxc : x = c
          · rw [if_pos hxc, if_pos hxc, if_pos hxc.symm]
            exact ih xs b
          · rw [if_neg hxc, if_neg hxc, if_neg (fun h => hxc h.symm)]
            simp

theorem headq_drop (l : List Char) : ∀ n : Nat, (l.drop n).head? = l.get? n := by
  induction l with
  | nil => intro n; simp
  | cons c t ih =>
      intro n
      cases n with
      | zero => rfl
      | succ m => simp [ih m]

theorem subFind_eq_none_of (p : List Char) :
    ∀ l : List Char, (∀ i, pfx p (l.drop i) = false) → subFind p l = none := by
  intro l
  induction l with
  | nil =>
      intro h
      have h0 := h 0
      simp only [List.drop_zero] at h0
      simp [subFind, h0]
  | cons c t ih =>
      intro h
      have h0 := h 0
      simp only [List.drop_zero] at h0
      have ht : subFind p t = none := ih (fun i => h (i + 1))
      simp [subFind, h0, ht]

theorem pfx_drop_false_of_subFind_none (p : List Char) :
    ∀ l : List Char, subFind p l = none → ∀ i, pfx p (l.drop i) = false := by
  intro l
  induction l with
  | nil =>
      intro h i
      simp only [subFind] at h
      cases hb : pfx p [] with
      | false => simpa [List.drop_nil] using hb
      | true => simp [hb] at h
  | cons c t ih =>
      intro h i
      simp only [subFind] at h
      cases hb : pfx p (c :: t) with
      | true => simp [hb] at h
      | false =>
          rw [hb] at h
          have ht : subFind p t = none := by
            cases hsf : subFind p t with
            | none => rfl
            | some j => rw [hsf] at h; simp at h
          cases i with
          | zero => simpa using hb
          | succ m => simpa using ih ht m

theorem subFind_eq_some_of (p : List Char) : ∀ (j : Nat) (l : List Char),
    pfx p (l.drop j) = true → (∀ k, k < j → pfx p (l.drop k) = false) →
    subFind p l = some j := by
  intro j
  induction j with
  | zero =>
      intro l hj _
      simp only [List.drop_zero] at hj
      cases l with
      | nil => simp [subFind, hj]
      | cons c t => simp [subFind, hj]
  | succ m ih =>
      intro l hj hmin
      cases l with
      | nil =>
          have h0 := hmin 0 (Nat.succ_pos m)
          simp only [List.drop_nil, List.drop_zero] at h0 hj
          rw [h0] at hj
          exact absurd hj (by simp)
      | cons c t =>
          have h0 := hmin 0 (Nat.succ_pos m)
          simp only [List.drop_zero] at h0
          have ht : subFind p t = some m :=
            ih t (by simpa using hj) (fun k hk => by
              have := hmin (k + 1) (by omega)
              simpa using this)
          simp [subFind, h0, ht]

theorem hasOcc_false_forall (p l : List Char) (h : hasOcc p l = false) :
    ∀ i, pfx p (l.drop i) = false := by
  have : subFind p l = none := by
    unfold hasOcc at h
    cases hs : subFind p l with
    | none => rfl
    | some j => rw [hs] at h; simp at h
  exact pfx_drop_false_of_subFind_none p l this

/-! ### Where the delimiters can and cannot occur -/

/-- In `x ++ r` where `r` starts with `'<'` and the pattern `p` starts
with `'<'` but contains no other `'<'`, an occurrence of `p` strictly
inside the `x` part would have to be a full occurrence inside `x`:
occurrences cannot straddle the boundary. -/
theorem pfx_false_in_prefix (p x r : List Char)
    (hponly : ∀ k, k < p.length → 0 < k → p.get? k ≠ some '<')
    (hr : r.head? = some '<')
    (hx : ∀ i, pfx p (x.drop i) = false) :
    ∀ i, i < x.length → pfx p ((x ++ r).drop i) = false := by
  intro i hi
  have hdrop : (x ++ r).drop i = x.drop i ++ r := by
    rw [List.drop_append_eq_append_drop]
    have h0 : i - x.length = 0 := by omega
    rw [h0, List.drop_zero]
  rw [hdrop]
  cases hb : pfx p (x.drop i ++ r) with
  | false => rfl
  | true =>
      exfalso
      rcases (pfx_append_iff (x.drop i) p r).mp hb with h1 | ⟨h2, h3⟩
      · rw [hx i] at h1
        exact absurd h1 (by simp)
      · by_cases hlen : p.length ≤ (x.drop i).length
        · have heq : x.drop i = p :=
            pfx_eq_of_length_le (x.drop i) p h2 hlen
          have : pfx p (x.drop i) = true := by
            rw [heq]
            have := pfx_append_self p []
            simpa using this
          rw [hx i] at this
          exact absurd this (by simp)
        · have hxd : (x.drop i).length = x.length - i := by simp
          have hklt : (x.drop i).length < p.length := by omega
          have hkpos : 0 < (x.drop i).length := by
            rw [hxd]
            omega
          have hne : p.drop (x.drop i).length ≠ [] := by
            intro hnil
            have hl := congrArg List.length hnil
            rw [List.length_drop, List.length_nil] at hl
            omega
          have hhead := pfx_head_eq (p.drop (x.drop i).length) r h3 hne
          rw [hr, headq_drop] at hhead
          exact hponly (x.drop i).length hklt hkpos hhead

/-- Searching for `'<table'` in `sep ++ ('<table' ++ R)`: the first
occurrence is exactly at `sep.length` when `sep` contains none. -/
theorem subFind_open_after_sep (sep R : List Char)
    (hsep : ∀ i, pfx table_tag_open (sep.drop i) = false) :
    subFind table_tag_open (sep ++ (table_tag_open ++ R)) = some sep.length := by
  apply subFind_eq_some_of
  · rw [List.drop_left]
    exact pfx_append_self _ _
  · intro k hk
    exact pfx_false_in_prefix table_tag_open sep (table_tag_open ++ R)
      (by decide) rfl hsep k hk

/-- No occurrence of `'</table>'` anywhere in `'<table' ++ body` when the
body contains none. -/
theorem pfx_close_false_in_open_body (body : List Char)
    (hbody : ∀ i, pfx table_tag_close (body.drop i) = false) :
    ∀ i, pfx table_tag_close ((table_tag_open ++ body).drop i) = false := by
  intro i
  by_cases hi : i < table_tag_open.length
  · have hdrop : (table_tag_open ++ body).drop i =
        table_tag_open.drop i ++ body := by
      rw [List.drop_append_eq_append_drop]
      have h0 : i - table_tag_open.length = 0 := by omega
      rw [h0, List.drop_zero]
    rw [hdrop]
    cases hb : pfx table_tag_close (table_tag_open.drop i ++ body) with
    | false => rfl
    | true =>
        exfalso
        rcases (pfx_append_iff (table_tag_open.drop i) table_tag_close
            body).mp hb with h1 | ⟨h2, _⟩
        · have hlen := pfx_length_le table_tag_close _ h1
          simp only [List.length_drop] at hlen
          have : table_tag_open.length = 6 := by decide
          have hcl : table_tag_close.length = 8 := by decide
          omega
        · have hfalse : ∀ j, j < 6 →
              pfx (table_tag_open.drop j) table_tag_close = false := by decide
          have h6 : table_tag_open.length = 6 := by decide
          rw [hfalse i (by omega)] at h2
          exact absurd h2 (by simp)
  · have hdrop : (table_tag_open ++ body).drop i =
        body.drop (i - table_tag_open.length) := by
      rw [List.drop_append_eq_append_drop]
      have h0 : table_tag_open.drop i = [] := by
        apply List.drop_eq_nil_of_le
        omega
      rw [h0, List.nil_append]
    rw [hdrop]
    exact hbody _

/-- Searching for `'</table>'` from the opening delimiter: the first
occurrence in `('<table' ++ body) ++ ('</table>' ++ R)` is exactly at the
end of the body. -/
theorem subFind_close_after_body (body R : List Char)
    (hbody : ∀ i, pfx table_tag_close (body.drop i) = false) :
    subFind table_tag_close
        ((table_tag_open ++ body) ++ (table_tag_close ++ R)) =
      some (table_tag_open ++ body).length := by
  apply subFind_eq_some_of
  · rw [List.drop_left]
    exact pfx_append_self _ _
  · intro k hk
    exact pfx_false_in_prefix table_tag_close (table_tag_open ++ body)
      (table_tag_close ++ R) (by decide) rfl
      (pfx_close_false_in_open_body body hbody) k hk

/-- Slice out the middle part of a concatenation. -/
theorem pySlice_middle (a m z : List Char) :
    pySlice (a ++ (m ++ z)) a.length (a.length + m.length) = m := by
  unfold pySlice
  rw [List.take_append m.length, List.take_left, List.drop_left]

/-! ### Well-formed markup and the extraction theorem -/

/-- `extractGo data fuel none acc` returns the accumulated tables. -/
theorem extractGo_none (data : List Char) (fuel : Nat)
    (acc : List (List Char)) : extractGo data fuel none acc = acc := by
  cases fuel <;> rfl

/-- One successful iteration of the scan loop. -/
theorem extractGo_step (data : List Char) (f s e : Nat)
    (acc : List (List Char))
    (h : findFrom table_tag_close data s = some e) :
    extractGo data (f + 1) (some s) acc =
      extractGo data f
        (findFrom table_tag_open data (e + table_tag_close.length))
        (acc ++ [pySlice data s (e + table_tag_close.length)]) := by
  show (match findFrom table_tag_close data s with
    | some table_tag_end_pos =>
        extractGo data f
          (findFrom table_tag_open data
            (table_tag_end_pos + table_tag_close.length))
          (acc ++ [pySlice data s
            (table_tag_end_pos + table_tag_close.length)])
    | none =>
        extractGo data f
          (findFrom table_tag_open data (table_tag_close.length - 1))
          (acc ++ [pySlice data s (table_tag_close.length - 1)])) = _
  rw [h]

/-- Reassemble markup from a list of (body, following-text) table blocks. -/
def assembleBlocks : List (List Char × List Char) → List Char
  | [] => []
  | bs :: rest =>
      table_tag_open ++ bs.1 ++ table_tag_close ++ bs.2 ++ assembleBlocks rest

/-- Markup made of leading text `pre` followed by the table blocks
interleaved with their trailing texts. -/
def assembleMarkup (pre : List Char)
    (blocks : List (List Char × List Char)) : List Char :=
  pre ++ assembleBlocks blocks

/-- Well-formed, non-nested markup: neither delimiter occurs inside the
leading text, any block body, or any inter-block text — the only
delimiters are the ones written by `assembleBlocks`. -/
def WFMarkup (pre : List Char)
    (blocks : List (List Char × List Char)) : Prop :=
  hasOcc table_tag_open pre = false ∧ hasOcc table_tag_close pre = false ∧
  ∀ bs ∈ blocks,
    hasOcc table_tag_open bs.1 = false ∧ hasOcc table_tag_close bs.1 = false ∧
    hasOcc table_tag_open bs.2 = false ∧ hasOcc table_tag_close bs.2 = false

instance (pre : List Char) (blocks : List (List Char × List Char)) :
    Decidable (WFMarkup pre blocks) := by
  unfold WFMarkup
  infer_instance

theorem assembleBlocks_length_ge (blocks : List (List Char × List Char)) :
    blocks.length ≤ (assembleBlocks blocks).length := by
  induction blocks with
  | nil => simp [assembleBlocks]
  | cons b rest ih =>
      have h6 : table_tag_open.length = 6 := by decide
      simp only [assembleBlocks, List.length_cons, List.length_append]
      omega

/-- The scan loop on well-formed markup, by induction on the remaining
blocks: with the current position at the end of the already-scanned text
`done`, the remainder consisting of delimiter-free text `sep` followed by
the remaining blocks, and enough fuel, the loop appends exactly one
fragment `'<table' ++ body ++ '</table>'` per remaining block. -/
theorem extractGo_wf : ∀ (blocks : List (List Char × List Char))
    (done sep : List Char) (fuel : Nat) (acc : List (List Char)),
    (∀ i, pfx table_tag_open (sep.drop i) = false) →
    (∀ bs ∈ blocks,
      (∀ i, pfx table_tag_close (bs.1.drop i) = false) ∧
      (∀ i, pfx table_tag_open (bs.2.drop i) = false)) →
    blocks.length < fuel →
    extractGo (done ++ (sep ++ assembleBlocks blocks)) fuel
      (findFrom table_tag_open (done ++ (sep ++ assembleBlocks blocks))
        done.length) acc
    = acc ++ blocks.map (fun bs => table_tag_open ++ bs.1 ++ table_tag_close)
  := by
  intro blocks
  induction blocks with
  | nil =>
      intro done sep fuel acc hsep _ _
      have hdrop : (done ++ (sep ++ assembleBlocks [])).drop done.length
          = sep := by
        rw [List.drop_left]
        simp [assembleBlocks]
      unfold findFrom
      rw [hdrop, subFind_eq_none_of _ _ hsep]
      simp [extractGo_none]
  | cons b rest ih =>
      intro done sep fuel acc hsep hblocks hfuel
      obtain ⟨body, sep2⟩ := b
      cases fuel with
      | zero => omega
      | succ f =>
      have hbody : ∀ i, pfx table_tag_close (body.drop i) = false :=
        (hblocks (body, sep2) (List.mem_cons_self _ _)).1
      have hsep2 : ∀ i, pfx table_tag_open (sep2.drop i) = false :=
        (hblocks (body, sep2) (List.mem_cons_self _ _)).2
      have hrest : ∀ bs ∈ rest,
          (∀ i, pfx table_tag_close (bs.1.drop i) = false) ∧
          (∀ i, pfx table_tag_open (bs.2.drop i) = false) :=
        fun bs hbs => hblocks bs (List.mem_cons_of_mem _ hbs)
      have hAB : assembleBlocks ((body, sep2) :: rest)
          = table_tag_open ++ (body ++ (table_tag_close
            ++ (sep2 ++ assembleBlocks rest))) := by
        simp [assembleBlocks]
      have hslen : sep.length + done.length = (done ++ sep).length := by
        simp [List.length_append, Nat.add_comm]
      -- Step 1: the open delimiter is found right after `sep`.
      have hfind1 : findFrom table_tag_open
          (done ++ (sep ++ assembleBlocks ((body, sep2) :: rest))) done.length
          = some (sep.length + done.length) := by
        unfold findFrom
        rw [List.drop_left, hAB, subFind_open_after_sep _ _ hsep]
        rfl
      -- Step 2: the close delimiter is found right after the body.
      have hDassoc : done ++ (sep ++ assembleBlocks ((body, sep2) :: rest))
          = (done ++ sep) ++ ((table_tag_open ++ body)
            ++ (table_tag_close ++ (sep2 ++ assembleBlocks rest))) := by
        rw [hAB]
        simp [List.append_assoc]
      have hfind2 : findFrom table_tag_close
          (done ++ (sep ++ assembleBlocks ((body, sep2) :: rest)))
          (sep.length + done.length)
          = some ((table_tag_open ++ body).length
              + (sep.length + done.length)) := by
        rw [hslen]
        unfold findFrom
        rw [hDassoc, List.drop_left,
          subFind_close_after_body body _ hbody]
        rfl
      rw [hfind1, extractGo_step _ f _ _ acc hfind2]
      -- Step 3: the appended fragment is the whole block.
      have hslice : pySlice
          (done ++ (sep ++ assembleBlocks ((body, sep2) :: rest)))
          (sep.length + done.length)
          ((table_tag_open ++ body).length + (sep.length + done.length)
            + table_tag_close.length)
          = table_tag_open ++ body ++ table_tag_close := by
        have hmid := pySlice_middle (done ++ sep)
          (table_tag_open ++ (body ++ table_tag_close))
          (sep2 ++ assembleBlocks rest)
        have hdata : (done ++ sep) ++ ((table_tag_open
              ++ (body ++ table_tag_close)) ++ (sep2 ++ assembleBlocks rest))
            = done ++ (sep ++ assembleBlocks ((body, sep2) :: rest)) := by
          rw [hAB]
          simp [List.append_assoc]
        have hidx : (table_tag_open ++ body).length
              + (sep.length + done.length) + table_tag_close.length
            = (done ++ sep).length
              + (table_tag_open ++ (body ++ table_tag_close)).length := by
          simp only [List.length_append]
          omega
        rw [hdata] at hmid
        rw [hidx, hslen, hmid]
        simp [List.append_assoc]
      rw [hslice]
      -- Step 4: recurse with the block consumed.
      have hpos : (table_tag_open ++ body).length + (sep.length + done.length)
            + table_tag_close.length
          = (done ++ (sep ++ (table_tag_open
              ++ (body ++ table_tag_close)))).length := by
        simp only [List.length_append]
        omega
      have hDd : done ++ (sep ++ assembleBlocks ((body, sep2) :: rest))
          = (done ++ (sep ++ (table_tag_open ++ (body ++ table_tag_close))))
            ++ (sep2 ++ assembleBlocks rest) := by
        rw [hAB]
        simp [List.append_assoc]
      rw [hpos, hDd]
      rw [ih (done ++ (sep ++ (table_tag_open ++ (body ++ table_tag_close))))
        sep2 f (acc ++ [table_tag_open ++ body ++ table_tag_close])
        hsep2 hrest (by simp at hfuel ⊢; omega)]
      simp [List.append_assoc]

/-! ## Claim C7 -/

/-- C7: for every markup consisting of leading text and `N` well-formed,
non-nested table blocks (no delimiter occurs outside the block
delimiters themselves), `extract_tables_from_raw_html` returns exactly
`N` fragments in document order, each spanning from its opening delimiter
to the first closing delimiter found after it (shallow matching,
continuing after the end of the previous fragment); and it returns the
empty sequence whenever the markup contains no opening table delimiter
at all. -/
theorem c7_extract_tables (pre : List Char)
    (blocks : List (List Char × List Char)) (hwf : WFMarkup pre blocks) :
    extract_tables_from_raw_html (assembleMarkup pre blocks) =
      blocks.map (fun bs => table_tag_open ++ bs.1 ++ table_tag_close) ∧
    (extract_tables_from_raw_html (assembleMarkup pre blocks)).length =
      blocks.length ∧
    ∀ data : List Char, hasOcc table_tag_open data = false →
      extract_tables_from_raw_html data = [] := by
  obtain ⟨hpre_o, _, hblocks⟩ := hwf
  have hmain : extract_tables_from_raw_html (assembleMarkup pre blocks)
      = blocks.map (fun bs => table_tag_open ++ bs.1 ++ table_tag_close) := by
    unfold extract_tables_from_raw_html assembleMarkup
    have hsep := hasOcc_false_forall _ _ hpre_o
    have hbl : ∀ bs ∈ blocks,
        (∀ i, pfx table_tag_close (bs.1.drop i) = false) ∧
        (∀ i, pfx table_tag_open (bs.2.drop i) = false) :=
      fun bs hbs => ⟨hasOcc_false_forall _ _ (hblocks bs hbs).2.1,
        hasOcc_false_forall _ _ (hblocks bs hbs).2.2.1⟩
    have hfuel : blocks.length
        < (pre ++ assembleBlocks blocks).length + 1 := by
      have := assembleBlocks_length_ge blocks
      simp only [List.length_append]
      omega
    have h := extractGo_wf blocks [] pre
      ((pre ++ assembleBlocks blocks).length + 1) [] hsep hbl hfuel
    simpa using h
  refine ⟨hmain, by rw [hmain]; simp, ?_⟩
  intro data hnone
  unfold extract_tables_from_raw_html
  have hsf : subFind table_tag_open data = none := by
    unfold hasOcc at hnone
    cases hs : subFind table_tag_open data with
    | none => rfl
    | some j => rw [hs] at hnone; simp at hnone
  unfold findFrom
  rw [List.drop_zero, hsf]
  simp [extractGo_none]

/-- Witness for `c7_extract_tables`: two concrete table blocks inside
ordinary markup. -/
theorem c7_extract_tables_witness :
    extract_tables_from_raw_html (assembleMarkup "<html><p>hi</p>".data
        [("<tr><td>1</td></tr>".data, "<br>".data),
          ("x".data, "</p>".data)]) =
      [("<tr><td>1</td></tr>".data, "<br>".data),
        ("x".data, "</p>".data)].map
        (fun bs => table_tag_open ++ bs.1 ++ table_tag_close) :=
  (c7_extract_tables "<html><p>hi</p>".data
    [("<tr><td>1</td></tr>".data, "<br>".data), ("x".data, "</p>".data)]
    (by decide)).1

/-! ## Technical indicators (`Indicators.set_macd`)

`set_macd` computes
`close.ewm(span=short, adjust=False, min_periods=short).mean()
 - close.ewm(span=long, adjust=False, min_periods=long).mean()` and a
signal line `macd.ewm(span=signal, adjust=False,
min_periods=signal).mean()`.  The pandas `ewm(..., adjust=False).mean()`
recursion uses `α = 2/(span+1)`; `min_periods` counts non-NaN
observations, NaN inputs leave the state untouched (the running mean is
carried forward once the warm-up is complete), and outputs before the
warm-up are NaN. -/

/-- The pandas `ewm(span=n)` smoothing factor `α = 2 / (span + 1)`. -/
def ewm_alpha (span : Nat) : ℚ := 2 / ((span : ℚ) + 1)

/-- One update of the recursive (`adjust=False`) EMA state. -/
def ewmStep (α : ℚ) (prev : Option ℚ) (x : ℚ) : ℚ :=
  match prev with
  | none => x
  | some p => (1 - α) * p + α * x

/-- The `Series.ewm(span, adjust=False, min_periods).mean()` recursion on
an optional-valued series; state = (current EMA, observation count). -/
def ewmGo (α : ℚ) (min_periods : Nat) :
    Option ℚ → Nat → List (Option ℚ) → List (Option ℚ)
  | _, _, [] => []
  | prev, cnt, x :: xs =>
      match x with
      | some v =>
          (if min_periods ≤ cnt + 1 then some (ewmStep α prev v) else none) ::
            ewmGo α min_periods (some (ewmStep α prev v)) (cnt + 1) xs
      | none =>
          (if min_periods ≤ cnt then prev else none) ::
            ewmGo α min_periods prev cnt xs

/-- `series.ewm(span=span, adjust=False, min_periods=min_periods).mean()`. -/
def ewm_mean (span min_periods : Nat) (xs : List (Option ℚ)) :
    List (Option ℚ) :=
  ewmGo (ewm_alpha span) min_periods none 0 xs

/-- Pointwise difference of two pandas series (NaN if either is NaN). -/
def zipSub : List (Option ℚ) → List (Option ℚ) → List (Option ℚ)
  | [], _ => []
  | _ :: _, [] => []
  | a :: as, b :: bs =>
      (match a, b with
        | some x, some y => some (x - y)
        | _, _ => none) :: zipSub as bs

/-- `Indicators.set_macd` on the close-price column: `None` (bare
`return`) on an empty series, otherwise the MACD and signal columns. -/
def set_macd (close : List ℚ) (long_period : Nat := 26)
    (short_period : Nat := 3) (signal_period : Nat := 9) :
    Option (List (Option ℚ) × List (Option ℚ)) :=
  if close.length ≤ 0 then none
  else
    some (zipSub
        (ewm_mean short_period short_period (close.map some))
        (ewm_mean long_period long_period (close.map some)),
      ewm_mean signal_period signal_period
        (zipSub (ewm_mean short_period short_period (close.map some))
          (ewm_mean long_period long_period (close.map some))))

/-- Modelled from the spec: the recursive (`adjust=false`) EMA value
sequence, continuing from previous value `p`. -/
def emaListGo (α : ℚ) : ℚ → List ℚ → List ℚ
  | _, [] => []
  | p, x :: xs =>
      ((1 - α) * p + α * x) :: emaListGo α ((1 - α) * p + α * x) xs

/-- Modelled from the spec: the recursive EMA `y₀ = x₀`,
`y_t = (1-α)·y_{t-1} + α·x_t`. -/
def emaList (α : ℚ) : List ℚ → List ℚ
  | [] => []
  | x :: xs => x :: emaListGo α x xs

/-- Hide the first values of a sequence until `min_periods` observations
(the counter starts at `cnt`) have accumulated. -/
def maskGo (min_periods : Nat) : Nat → List ℚ → List (Option ℚ)
  | _, [] => []
  | cnt, y :: ys =>
      (if min_periods ≤ cnt + 1 then some y else none) ::
        maskGo min_periods (cnt + 1) ys

/-- The MACD column as the spec describes it: the pointwise difference of
the two recursive EMAs, masked for the first
`max short_period long_period - 1` indices. -/
def macdSpec (close : List ℚ) (short_period long_period : Nat) :
    List (Option ℚ) :=
  maskGo (max short_period long_period) 0
    (List.zipWith (fun a b => a - b)
      (emaList (ewm_alpha short_period) close)
      (emaList (ewm_alpha long_period) close))

/-- The signal column as the spec describes it: NaN while the MACD itself
is warming up, then the recursive EMA of the defined MACD values, masked
for its own first `signal_period - 1` defined observations. -/
def signalSpec (close : List ℚ)
    (short_period long_period signal_period : Nat) : List (Option ℚ) :=
  List.replicate (min (max short_period long_period - 1) close.length) none
    ++ maskGo signal_period 0
      (emaList (ewm_alpha signal_period)
        ((List.zipWith (fun a b => a - b)
          (emaList (ewm_alpha short_period) close)
          (emaList (ewm_alpha long_period) close)).drop
            (max short_period long_period - 1)))

theorem ewmGo_map_some (α : ℚ) (n : Nat) :
    ∀ (xs : List ℚ) (p : ℚ) (cnt : Nat),
    ewmGo α n (some p) cnt (xs.map some) = maskGo n cnt (emaListGo α p xs) := by
  intro xs
  induction xs with
  | nil => intro p cnt; rfl
  | cons x txs ih =>
      intro p cnt
      simp only [List.map_cons, ewmGo, ewmStep, emaListGo, maskGo]
      rw [ih ((1 - α) * p + α * x) (cnt + 1)]

theorem ewm_mean_map_some (span n : Nat) (xs : List ℚ) :
    ewm_mean span n (xs.map some) = maskGo n 0 (emaList (ewm_alpha span) xs) := by
  cases xs with
  | nil => rfl
  | cons x txs =>
      unfold ewm_mean
      simp only [List.map_cons, ewmGo, ewmStep, emaList, maskGo]
      rw [ewmGo_map_some (ewm_alpha span) n txs x 1]

theorem zipSub_maskGo (n1 n2 : Nat) : ∀ (ys zs : List ℚ) (cnt : Nat),
    zipSub (maskGo n1 cnt ys) (maskGo n2 cnt zs) =
      maskGo (max n1 n2) cnt (List.zipWith (fun a b => a - b) ys zs) := by
  intro ys
  induction ys with
  | nil => intro zs cnt; cases zs <;> rfl
  | cons y tys ih =>
      intro zs cnt
      cases zs with
      | nil => rfl
      | cons z tzs =>
          simp only [maskGo, zipSub, List.zipWith_cons_cons]
          rw [ih tzs (cnt + 1)]
          congr 1
          by_cases h1 : n1 ≤ cnt + 1
          · by_cases h2 : n2 ≤ cnt + 1
            · rw [if_pos h1, if_pos h2, if_pos (by omega : max n1 n2 ≤ cnt + 1)]
            · rw [if_pos h1, if_neg h2,
                if_neg (by omega : ¬ max n1 n2 ≤ cnt + 1)]
          · rw [if_neg h1, if_neg (by omega : ¬ max n1 n2 ≤ cnt + 1)]

theorem ewmGo_replicate_none (α : ℚ) (n : Nat) :
    ∀ (k : Nat) (rest : List (Option ℚ)),
    ewmGo α n none 0 (List.replicate k none ++ rest) =
      List.replicate k none ++ ewmGo α n none 0 rest := by
  intro k
  induction k with
  | zero => intro rest; rfl
  | succ m ih =>
      intro rest
      simp only [List.replicate_succ, List.cons_append, List.append_eq, ewmGo]
      rw [ih rest]
      simp

theorem maskGo_shape (n : Nat) : ∀ (ys : List ℚ) (cnt : Nat),
    maskGo n cnt ys =
      List.replicate (min (n - 1 - cnt) ys.length) none
        ++ (ys.drop (n - 1 - cnt)).map some := by
  intro ys
  induction ys with
  | nil => intro cnt; simp [maskGo]
  | cons y tys ih =>
      intro cnt
      by_cases h : n ≤ cnt + 1
      · have h0 : n - 1 - cnt = 0 := by omega
        simp only [maskGo, if_pos h, h0, ih (cnt + 1),
          show n - 1 - (cnt + 1) = 0 by omega]
        simp
      · have hpos : 1 ≤ n - 1 - cnt := by omega
        have hm : min (n - 1 - cnt) (tys.length + 1)
            = min (n - 1 - (cnt + 1)) tys.length + 1 := by omega
        simp only [maskGo, if_neg h, ih (cnt + 1)]
        rw [show (y :: tys).length = tys.length + 1 by simp, hm,
          List.replicate_succ,
          show n - 1 - cnt = (n - 1 - (cnt + 1)) + 1 by omega,
          List.drop_succ_cons]
        simp

theorem emaListGo_length (α : ℚ) : ∀ (xs : List ℚ) (p : ℚ),
    (emaListGo α p xs).length = xs.length := by
  intro xs
  induction xs with
  | nil => intro p; rfl
  | cons x t ih => intro p; simp [emaListGo, ih]

theorem emaList_length (α : ℚ) (xs : List ℚ) :
    (emaList α xs).length = xs.length := by
  cases xs with
  | nil => rfl
  | cons x t => simp [emaList, emaListGo_length]

theorem getq_replicate_none_lt (k : Nat) : ∀ (i : Nat)
    (zs : List (Option ℚ)), i < k →
    (List.replicate k (none : Option ℚ) ++ zs).get? i = some none := by
  induction k with
  | zero => intro i zs h; omega
  | succ m ih =>
      intro i zs h
      cases i with
      | zero => rfl
      | succ j =>
          have := ih j zs (by omega)
          simpa [List.replicate_succ] using this

theorem getq_replicate_none_ge (k : Nat) : ∀ (i : Nat)
    (zs : List (Option ℚ)), k ≤ i →
    (List.replicate k (none : Option ℚ) ++ zs).get? i = zs.get? (i - k) := by
  induction k with
  | zero => intro i zs _; simp
  | succ m ih =>
      intro i zs h
      cases i with
      | zero => omega
      | succ j =>
          have step : (List.replicate (m + 1) (none : Option ℚ) ++ zs).get?
              (j + 1) = (List.replicate m none ++ zs).get? j := by
            simp [List.replicate_succ]
          rw [step, ih j zs (by omega)]
          congr 1
          omega

theorem getq_map_some : ∀ (ys : List ℚ) (i : Nat), i < ys.length →
    ∃ q : ℚ, (ys.map some).get? i = some (some q) := by
  intro ys
  induction ys with
  | nil => intro i h; simp at h
  | cons y t ih =>
      intro i h
      cases i with
      | zero => exact ⟨y, rfl⟩
      | succ j =>
          obtain ⟨q, hq⟩ := ih j (by simpa using Nat.lt_of_succ_lt_succ h)
          exact ⟨q, by simpa using hq⟩

theorem macd_column_eq (close : List ℚ) (s l : Nat) :
    zipSub (ewm_mean s s (close.map some)) (ewm_mean l l (close.map some)) =
      macdSpec close s l := by
  rw [ewm_mean_map_some, ewm_mean_map_some, zipSub_maskGo]
  rfl

theorem signal_column_eq (close : List ℚ) (s l sig : Nat) :
    ewm_mean sig sig (macdSpec close s l) = signalSpec close s l sig := by
  unfold macdSpec signalSpec ewm_mean
  rw [maskGo_shape]
  simp only [Nat.sub_zero]
  rw [ewmGo_replicate_none]
  have hW := ewm_mean_map_some sig sig
    ((List.zipWith (fun a b => a - b) (emaList (ewm_alpha s) close)
      (emaList (ewm_alpha l) close)).drop (max s l - 1))
  unfold ewm_mean at hW
  rw [hW]
  have hVlen : (List.zipWith (fun a b => a - b) (emaList (ewm_alpha s) close)
      (emaList (ewm_alpha l) close)).length = close.length := by
    rw [List.length_zipWith, emaList_length, emaList_length, Nat.min_self]
  rw [hVlen]

/-! ## Claim C9 -/

/-- C9: for every non-empty price series, `set_macd` computes the MACD
column as the recursive (`adjust=False`) EMA of the closes with the short
span minus the one with the long span, and the signal column as the same
recursive EMA of the MACD column; MACD values are absent (NaN) exactly
until `max short_period long_period` observations have accumulated
(i.e. for indices `i` with `i + 1 < max short long`), and signal values
are absent until `signal_period` MACD observations have accumulated on
top of that warm-up. -/
theorem c9_set_macd (close : List ℚ)
    (long_period short_period signal_period : Nat)
    (hne : close ≠ []) (hshort : 1 ≤ short_period) (hlong : 1 ≤ long_period)
    (hsignal : 1 ≤ signal_period) :
    set_macd close long_period short_period signal_period =
      some (macdSpec close short_period long_period,
        signalSpec close short_period long_period signal_period) ∧
    (∀ i, i < close.length → i + 1 < max short_period long_period →
      (macdSpec close short_period long_period).get? i = some none) ∧
    (∀ i, i < close.length → max short_period long_period ≤ i + 1 →
      ∃ q, (macdSpec close short_period long_period).get? i =
        some (some q)) ∧
    (∀ i, i < close.length →
        i + 2 < max short_period long_period + signal_period →
      (signalSpec close short_period long_period signal_period).get? i =
        some none) ∧
    (∀ i, i < close.length →
        max short_period long_period + signal_period ≤ i + 2 →
      ∃ q, (signalSpec close short_period long_period signal_period).get? i =
        some (some q)) := by
  have hVlen : (List.zipWith (fun a b => a - b)
      (emaList (ewm_alpha short_period) close)
      (emaList (ewm_alpha long_period) close)).length = close.length := by
    rw [List.length_zipWith, emaList_length, emaList_length, Nat.min_self]
  have hmacd_shape : macdSpec close short_period long_period =
      List.replicate (min (max short_period long_period - 1) close.length)
          (none : Option ℚ)
        ++ ((List.zipWith (fun a b => a - b)
          (emaList (ewm_alpha short_period) close)
          (emaList (ewm_alpha long_period) close)).drop
            (max short_period long_period - 1)).map some := by
    unfold macdSpec
    rw [maskGo_shape]
    simp only [Nat.sub_zero]
    rw [hVlen]
  refine ⟨?_, ?_, ?_, ?_, ?_⟩
  · unfold set_macd
    have hlen : ¬ close.length ≤ 0 := by
      cases close with
      | nil => exact absurd rfl hne
      | cons c t => simp
    rw [if_neg hlen, macd_column_eq, signal_column_eq]
  · intro i hi hlt
    rw [hmacd_shape]
    apply getq_replicate_none_lt
    omega
  · intro i hi hge
    rw [hmacd_shape]
    have hk : min (max short_period long_period - 1) close.length =
        max short_period long_period - 1 := by omega
    rw [hk, getq_replicate_none_ge _ _ _ (by omega)]
    apply getq_map_some
    rw [List.length_drop, hVlen]
    omega
  · intro i hi hlt
    unfold signalSpec
    by_cases hzone : i <
        min (max short_period long_period - 1) close.length
    · exact getq_replicate_none_lt _ _ _ hzone
    · have hx : max short_period long_period - 1 ≤ i := by omega
      have hk : min (max short_period long_period - 1) close.length =
          max short_period long_period - 1 := by omega
      rw [hk, getq_replicate_none_ge _ _ _ hx, maskGo_shape]
      simp only [Nat.sub_zero]
      apply getq_replicate_none_lt
      rw [emaList_length, List.length_drop, hVlen]
      omega
  · intro i hi hge
    unfold signalSpec
    have hx : max short_period long_period - 1 ≤ i := by omega
    have hk : min (max short_period long_period - 1) close.length =
        max short_period long_period - 1 := by omega
    rw [hk, getq_replicate_none_ge _ _ _ hx, maskGo_shape]
    simp only [Nat.sub_zero]
    have hk2 : min (signal_period - 1)
        ((emaList (ewm_alpha signal_period)
          ((List.zipWith (fun a b => a - b)
            (emaList (ewm_alpha short_period) close)
            (emaList (ewm_alpha long_period) close)).drop
              (max short_period long_period - 1))).length) =
        signal_period - 1 := by
      rw [emaList_length, List.length_drop, hVlen]
      omega
    rw [hk2, getq_replicate_none_ge _ _ _ (by omega)]
    apply getq_map_some
    rw [List.length_drop, emaList_length, List.length_drop, hVlen]
    omega

/-- Witness for `c9_set_macd` on the series `[1, 2, 3, 4]` with
`long = 3`, `short = 2`, `signal = 2`. -/
theorem c9_set_macd_witness :
    set_macd [1, 2, 3, 4] 3 2 2 =
      some (macdSpec [1, 2, 3, 4] 2 3, signalSpec [1, 2, 3, 4] 2 3 2) :=
  (c9_set_macd [1, 2, 3, 4] 3 2 2 (by simp) (by omega) (by omega)
    (by omega)).1
